import Mathlib

/-!
Verification of the STM32 "breathing LED" demo.

The repository contains two algorithmic pieces:
* `main.c` — an infinite loop generating a software PWM on LED2 whose duty
  cycle ramps up and down ("breathing"), toggling LED1 at the extremes;
* `Delay.c` — SysTick-based busy-wait delays `Delay_us` / `Delay_ms` /
  `Delay_s`.

We embed both shallowly: the loop body becomes a step function on an
explicit state, the delay functions become functions computing the SysTick
load value (in 32-bit unsigned arithmetic, i.e. modulo 2^32) and the
traces of primitive calls the millisecond/second variants make.
-/

namespace Breathing

/-- Constant from main.c: `static const int PWM_CYCLE = 500;`. -/
def PWM_CYCLE : ℤ := 500

/-- Constant from main.c: `static const int BRIGHTNESS_MAX = 255;`. -/
def BRIGHTNESS_MAX : ℤ := 255

/-- Constant from main.c: `static const int UPDATE_EVERY = 15;`. -/
def UPDATE_EVERY : ℤ := 15

/-- Constant from main.c: `static const int STEP = 1;`. -/
def STEP : ℤ := 1

/-- The three persistent loop variables of `main`:
`brightness`, `direction` and `counter`, all C `int`s. -/
structure State where
  brightness : ℤ
  direction : ℤ
  counter : ℤ
  deriving Repr, DecidableEq

/-- Initial values: `brightness = 0`, `direction = 1`, `counter = 0`. -/
def init : State := ⟨0, 1, 0⟩

/-- Observable actions a loop iteration performs, in order: LED1 on/off
(`LED_On_1` / `LED_Off_1`), LED2 on/off (`LED_On_2` / `LED_Off_2`), and a
call `Delay_us d`. -/
inductive Event where
  | on1 : Event
  | off1 : Event
  | on2 : Event
  | off2 : Event
  | delayUs : ℤ → Event
  deriving Repr, DecidableEq

/-- The duty computation from main.c:
`int on_time = (brightness * PWM_CYCLE) / BRIGHTNESS_MAX;`.
All operands are non-negative in the reachable range, where C truncating
division and Lean's integer division coincide. -/
def on_time (b : ℤ) : ℤ := b * PWM_CYCLE / BRIGHTNESS_MAX

/-- The complement from main.c: `int off_time = PWM_CYCLE - on_time;`. -/
def off_time (b : ℤ) : ℤ := PWM_CYCLE - on_time b

/-- The PWM phase of one loop iteration:
`if(on_time > 0) { LED_On_2(); Delay_us(on_time); }` followed by
`if(off_time > 0) { LED_Off_2(); Delay_us(off_time); }`. -/
def pwmEvents (b : ℤ) : List Event :=
  (if on_time b > 0 then [Event.on2, Event.delayUs (on_time b)] else []) ++
  (if off_time b > 0 then [Event.off2, Event.delayUs (off_time b)] else [])

/-- The brightness-update phase of one loop iteration:
`if(++counter >= UPDATE_EVERY)` resets the counter, performs
`brightness += direction * STEP;`, then the boundary checks clamp to
255 / 0, flip `direction` and drive LED1. Returns the next state and the
LED1 events emitted. -/
def update (s : State) : State × List Event :=
  let c := s.counter + 1
  if c ≥ UPDATE_EVERY then
    let b := s.brightness + s.direction * STEP
    if b ≥ 255 then (⟨255, -1, 0⟩, [Event.on1])
    else if b ≤ 0 then (⟨0, 1, 0⟩, [Event.off1])
    else (⟨b, s.direction, 0⟩, [])
  else (⟨s.brightness, s.direction, c⟩, [])

/-- One full iteration of the `while(1)` body of `main`: the PWM phase
followed by the brightness update. -/
def step (s : State) : State × List Event :=
  ((update s).1, pwmEvents s.brightness ++ (update s).2)

/-- The state after `n` iterations of the main loop, starting from `init`. -/
def iterate : ℕ → State
  | 0 => init
  | n + 1 => (step (iterate n)).1

/-- State after `n` iterations paired with the number of `LED_On_1`
events fired during those `n` iterations. -/
def run : ℕ → State × ℕ
  | 0 => (init, 0)
  | n + 1 =>
    let p := run n
    ((step p.1).1, p.2 + ((step p.1).2.count Event.on1))

/-- Inductive invariant of the main loop, established below for every
reachable state: brightness within bounds, direction a unit step, counter
within its reset window, and the two bound/direction combinations that
the boundary policy makes unreachable. -/
def LoopInv (s : State) : Prop :=
  0 ≤ s.brightness ∧ s.brightness ≤ 255 ∧
  (s.direction = 1 ∨ s.direction = -1) ∧
  0 ≤ s.counter ∧ s.counter ≤ 14 ∧
  ¬(s.brightness = 255 ∧ s.direction = 1) ∧
  ¬(s.brightness = 0 ∧ s.direction = -1)

end Breathing

namespace Delay

/-- Modulus of C `uint32_t` arithmetic. -/
def UINT32_MOD : ℕ := 2 ^ 32

/-- Maximum value of the 24-bit SysTick counter, `0xFFFFFF` in Delay.c. -/
def SYSTICK_MAX : ℕ := 0xFFFFFF

/-- SystemCoreClock of the STM32F407 the comments in Delay.c assume:
168 MHz. -/
def F407_CLOCK : ℕ := 168000000

/-- The tick computation from `Delay_us` in Delay.c:
`uint32_t ticks = SystemCoreClock / 1000000 * xus;` — unsigned 32-bit
division then multiplication, so the product is reduced modulo 2^32
(`SystemCoreClock` is itself a `uint32_t`, so the quotient is exact;
only the product can wrap). -/
def ticksRaw (clk xus : ℕ) : ℕ := clk / 1000000 * xus % UINT32_MOD

/-- The SysTick load value after the clamp in `Delay_us`:
`if(ticks > 0xFFFFFF) ticks = 0xFFFFFF;` followed by
`SysTick->LOAD = ticks;`. -/
def loadValue (clk xus : ℕ) : ℕ :=
  if ticksRaw clk xus > SYSTICK_MAX then SYSTICK_MAX else ticksRaw clk xus

/-- Modelled from the spec: the SysTick hardware itself (register file,
countdown, COUNTFLAG) is a vendor collaborator outside the sources; per
the spec the busy-wait in `Delay_us` blocks for the counter-load value in
core-clock ticks and then returns, so the observable wait of a call is
its load value. -/
def delayTicks (clk xus : ℕ) : ℕ := loadValue clk xus

/-- The loop `while(xms--) Delay_us(1000);` of `Delay_ms` in Delay.c,
as the list of arguments of the `Delay_us` calls it performs, in order.
The post-decrement test enters the body exactly `xms` times. -/
def Delay_ms_calls : ℕ → List ℕ
  | 0 => []
  | n + 1 => 1000 :: Delay_ms_calls n

/-- The loop `while(xs--) Delay_ms(1000);` of `Delay_s` in Delay.c,
as the list of arguments of the `Delay_ms` calls it performs, in order. -/
def Delay_s_calls : ℕ → List ℕ
  | 0 => []
  | n + 1 => 1000 :: Delay_s_calls n

theorem Delay_ms_calls_eq (x : ℕ) : Delay_ms_calls x = List.replicate x 1000 := by
  induction x with
  | zero => rfl
  | succ n ih => simp [Delay_ms_calls, List.replicate, ih]

theorem Delay_s_calls_eq (x : ℕ) : Delay_s_calls x = List.replicate x 1000 := by
  induction x with
  | zero => rfl
  | succ n ih => simp [Delay_s_calls, List.replicate, ih]

end Delay

/-- **C2.** For every brightness `b ∈ [0,255]` the duty split of a loop
iteration satisfies `on_time = b * 500 / 255` (integer division),
`on_time + off_time = PWM_CYCLE`, `off_time ≥ 0`, with `PWM_CYCLE = 500`. -/
theorem duty_split_conservation (b : ℤ) (h0 : 0 ≤ b) (h1 : b ≤ 255) :
    Breathing.on_time b = b * 500 / 255 ∧
    Breathing.on_time b + Breathing.off_time b = Breathing.PWM_CYCLE ∧
    0 ≤ Breathing.off_time b ∧
    Breathing.PWM_CYCLE = 500 := by
  refine ⟨rfl, ?_, ?_, rfl⟩ <;>
    simp only [Breathing.on_time, Breathing.off_time, Breathing.PWM_CYCLE,
      Breathing.BRIGHTNESS_MAX] <;>
    omega

/-- Witness for `duty_split_conservation` at `b = 128`. -/
theorem duty_split_conservation_witness :
    Breathing.on_time 128 = 128 * 500 / 255 ∧
    Breathing.on_time 128 + Breathing.off_time 128 = Breathing.PWM_CYCLE ∧
    0 ≤ Breathing.off_time 128 ∧
    Breathing.PWM_CYCLE = 500 :=
  duty_split_conservation 128 (by norm_num) (by norm_num)

/-- **C4.** `Delay_ms x` performs exactly `x` calls `Delay_us 1000`,
`Delay_s x` performs exactly `x` calls `Delay_ms 1000`, and an argument
of `0` performs no calls at all. -/
theorem delay_composition (x : ℕ) :
    Delay.Delay_ms_calls x = List.replicate x 1000 ∧
    (Delay.Delay_ms_calls x).length = x ∧
    Delay.Delay_s_calls x = List.replicate x 1000 ∧
    (Delay.Delay_s_calls x).length = x ∧
    Delay.Delay_ms_calls 0 = [] ∧
    Delay.Delay_s_calls 0 = [] :=
  ⟨Delay.Delay_ms_calls_eq x, by simp [Delay.Delay_ms_calls_eq],
   Delay.Delay_s_calls_eq x, by simp [Delay.Delay_s_calls_eq], rfl, rfl⟩

/-- **C7.** A call `Delay_us 0` loads the SysTick counter with 0 and its
observable wait is 0 ticks: no delay is performed. -/
theorem delay_us_zero (clk : ℕ) :
    Delay.loadValue clk 0 = 0 ∧ Delay.delayTicks clk 0 = 0 := by
  have h : Delay.ticksRaw clk 0 = 0 := by
    simp [Delay.ticksRaw]
  constructor <;> simp [Delay.delayTicks, Delay.loadValue, h, Delay.SYSTICK_MAX]

/-- **C3 (counterexample).** Not every out-of-range request is clamped to
`0xFFFFFF`: at the 168 MHz clock, `xus = 25565282` has a true tick count
`168 * 25565282 = 4294967376 > 0xFFFFFF` (out of range), yet the computed
load value is 80 because the 32-bit product wrapped. -/
theorem delay_us_clamp_counterexample :
    Delay.F407_CLOCK / 1000000 * 25565282 > Delay.SYSTICK_MAX ∧
    Delay.loadValue Delay.F407_CLOCK 25565282 = 80 ∧
    Delay.loadValue Delay.F407_CLOCK 25565282 ≠ Delay.SYSTICK_MAX := by
  refine ⟨by decide, by decide, by decide⟩

/-- **C3 (amended).** For every request `d` whose true tick count
`(clk/1000000) * d` is within the 24-bit range, the load value is exactly
`(clk/1000000) * d`; the request `d = 10000000` at the typical 168 MHz
clock is silently clamped to the 24-bit maximum `0xFFFFFF`; and in
general the clamp engages exactly when the 32-bit (wrapped) tick value
exceeds `0xFFFFFF`. -/
theorem delay_us_load_amended (clk d : ℕ)
    (h : clk / 1000000 * d ≤ Delay.SYSTICK_MAX) :
    Delay.loadValue clk d = clk / 1000000 * d ∧
    Delay.loadValue Delay.F407_CLOCK 10000000 = Delay.SYSTICK_MAX ∧
    (∀ c x, Delay.SYSTICK_MAX < Delay.ticksRaw c x →
      Delay.loadValue c x = Delay.SYSTICK_MAX) := by
  refine ⟨?_, by decide, ?_⟩
  · have hlt : clk / 1000000 * d < Delay.UINT32_MOD := by
      have : Delay.SYSTICK_MAX < Delay.UINT32_MOD := by decide
      omega
    have hraw : Delay.ticksRaw clk d = clk / 1000000 * d := by
      simp [Delay.ticksRaw, Nat.mod_eq_of_lt hlt]
    simp [Delay.loadValue, hraw]
    omega
  · intro c x hc
    simp [Delay.loadValue, hc]

/-- Witness for `delay_us_load_amended` at `clk = 168000000`, `d = 99000`
(in range: `168 * 99000 = 16632000 ≤ 0xFFFFFF`). -/
theorem delay_us_load_amended_witness :
    Delay.loadValue 168000000 99000 = 168000000 / 1000000 * 99000 ∧
    Delay.loadValue Delay.F407_CLOCK 10000000 = Delay.SYSTICK_MAX ∧
    (∀ c x, Delay.SYSTICK_MAX < Delay.ticksRaw c x →
      Delay.loadValue c x = Delay.SYSTICK_MAX) :=
  delay_us_load_amended 168000000 99000 (by decide)

/-- **C10.** The tick computation of `Delay_us` is 32-bit: the stored
value is the true product reduced modulo `2^32`, and whenever that
wrapped value is at most `0xFFFFFF` the clamp does not engage, so the
load equals the wrapped value. At 168 MHz, `xus = 25565283` has true
tick count `≥ 2^32`; its wrapped value is 248, far below the counter
maximum, and the load value is 248. -/
theorem delay_us_wraparound (clk xus : ℕ)
    (h : clk / 1000000 * xus % 2 ^ 32 ≤ Delay.SYSTICK_MAX) :
    Delay.ticksRaw clk xus = clk / 1000000 * xus % 2 ^ 32 ∧
    Delay.loadValue clk xus = clk / 1000000 * xus % 2 ^ 32 ∧
    2 ^ 32 ≤ Delay.F407_CLOCK / 1000000 * 25565283 ∧
    Delay.loadValue Delay.F407_CLOCK 25565283 = 248 ∧
    (248 : ℕ) < Delay.SYSTICK_MAX := by
  have hraw : Delay.ticksRaw clk xus = clk / 1000000 * xus % 2 ^ 32 := rfl
  refine ⟨hraw, ?_, by decide, by decide, by decide⟩
  simp [Delay.loadValue, hraw]
  omega

/-- Witness for `delay_us_wraparound` at `clk = 168000000`,
`xus = 25565283` (wrapped value `248 ≤ 0xFFFFFF`). -/
theorem delay_us_wraparound_witness :
    Delay.ticksRaw 168000000 25565283 = 168000000 / 1000000 * 25565283 % 2 ^ 32 ∧
    Delay.loadValue 168000000 25565283 = 168000000 / 1000000 * 25565283 % 2 ^ 32 ∧
    2 ^ 32 ≤ Delay.F407_CLOCK / 1000000 * 25565283 ∧
    Delay.loadValue Delay.F407_CLOCK 25565283 = 248 ∧
    (248 : ℕ) < Delay.SYSTICK_MAX :=
  delay_us_wraparound 168000000 25565283 (by decide)

open Breathing

theorem step_fst (s : State) : (step s).1 = (update s).1 := rfl

theorem step_snd (s : State) :
    (step s).2 = pwmEvents s.brightness ++ (update s).2 := rfl

theorem iterate_succ (n : ℕ) : iterate (n + 1) = (step (iterate n)).1 := rfl

theorem run_succ (n : ℕ) :
    run (n + 1) =
      ((step (run n).1).1,
        (run n).2 + ((step (run n).1).2.count Event.on1)) := rfl

theorem inv_init : LoopInv init := by
  unfold LoopInv init
  norm_num

theorem inv_step : ∀ s : State, LoopInv s → LoopInv (step s).1 := by
  rintro ⟨b, d, c⟩ ⟨hb0, hb1, hd, hc0, hc1, hx, hy⟩
  simp only [LoopInv, step_fst, update, UPDATE_EVERY, STEP] at *
  rcases hd with rfl | rfl <;> split_ifs <;> simp_all <;> omega

theorem inv_iterate (n : ℕ) : LoopInv (iterate n) := by
  induction n with
  | zero => exact inv_init
  | succ n ih => exact inv_step _ ih

theorem flip_characterization : ∀ s : State, LoopInv s →
    ((step s).1.direction ≠ s.direction ↔
      ((step s).1.brightness = 255 ∧ s.brightness ≠ 255) ∨
      ((step s).1.brightness = 0 ∧ s.brightness ≠ 0)) := by
  rintro ⟨b, d, c⟩ ⟨hb0, hb1, hd, hc0, hc1, hx, hy⟩
  simp only [step_fst, update, UPDATE_EVERY, STEP]
  rcases hd with rfl | rfl <;> split_ifs <;> simp_all <;> omega

theorem mono_characterization : ∀ s : State, LoopInv s →
    (s.direction = 1 → s.brightness ≤ (step s).1.brightness) ∧
    (s.direction = -1 → (step s).1.brightness ≤ s.brightness) := by
  rintro ⟨b, d, c⟩ ⟨hb0, hb1, hd, hc0, hc1, hx, hy⟩
  simp only [step_fst, update, UPDATE_EVERY, STEP]
  rcases hd with rfl | rfl <;> split_ifs <;> simp_all <;> omega

/-- **C1.** Every reachable state of the main loop satisfies
`0 ≤ brightness ≤ 255` and `direction ∈ {+1, -1}`, and across each
iteration the direction flips exactly when brightness reaches a bound
(becomes 255 or 0 without having been there) and at no other time. -/
theorem breathing_invariant_and_flip (n : ℕ) :
    0 ≤ (iterate n).brightness ∧ (iterate n).brightness ≤ 255 ∧
    ((iterate n).direction = 1 ∨ (iterate n).direction = -1) ∧
    ((iterate (n + 1)).direction ≠ (iterate n).direction ↔
      ((iterate (n + 1)).brightness = 255 ∧ (iterate n).brightness ≠ 255) ∨
      ((iterate (n + 1)).brightness = 0 ∧ (iterate n).brightness ≠ 0)) := by
  have h := inv_iterate n
  exact ⟨h.1, h.2.1, h.2.2.1, flip_characterization _ h⟩

/-- **C9.** Across every step of the main loop, brightness is
non-decreasing while `direction = +1` and non-increasing while
`direction = -1`, brightness stays in `[0, 255]`, and a boundary touch
coincides exactly with one direction flip. -/
theorem brightness_monotone_bounded (n : ℕ) :
    ((iterate n).direction = 1 →
      (iterate n).brightness ≤ (iterate (n + 1)).brightness) ∧
    ((iterate n).direction = -1 →
      (iterate (n + 1)).brightness ≤ (iterate n).brightness) ∧
    0 ≤ (iterate (n + 1)).brightness ∧ (iterate (n + 1)).brightness ≤ 255 ∧
    ((iterate (n + 1)).direction ≠ (iterate n).direction ↔
      ((iterate (n + 1)).brightness = 255 ∧ (iterate n).brightness ≠ 255) ∨
      ((iterate (n + 1)).brightness = 0 ∧ (iterate n).brightness ≠ 0)) := by
  have h := inv_iterate n
  have h' := inv_iterate (n + 1)
  have hm := mono_characterization _ h
  exact ⟨hm.1, hm.2, h'.1, h'.2.1, flip_characterization _ h⟩

theorem on1_not_pwm (b : ℤ) : Event.on1 ∉ pwmEvents b := by
  unfold pwmEvents
  split_ifs <;> simp

theorem off1_not_pwm (b : ℤ) : Event.off1 ∉ pwmEvents b := by
  unfold pwmEvents
  split_ifs <;> simp

theorem mem_on1_step (s : State) :
    Event.on1 ∈ (step s).2 ↔ Event.on1 ∈ (update s).2 := by
  rw [step_snd, List.mem_append]
  have := on1_not_pwm s.brightness
  tauto

theorem mem_off1_step (s : State) :
    Event.off1 ∈ (step s).2 ↔ Event.off1 ∈ (update s).2 := by
  rw [step_snd, List.mem_append]
  have := off1_not_pwm s.brightness
  tauto

theorem events_characterization : ∀ s : State, LoopInv s →
    (Event.on1 ∈ (step s).2 ↔
      UPDATE_EVERY ≤ s.counter + 1 ∧ 255 ≤ s.brightness + s.direction * STEP) ∧
    (Event.on1 ∈ (step s).2 →
      (step s).1.brightness = 255 ∧ (step s).1.direction = -1) ∧
    (Event.off1 ∈ (step s).2 ↔
      UPDATE_EVERY ≤ s.counter + 1 ∧ s.brightness + s.direction * STEP ≤ 0) ∧
    (Event.off1 ∈ (step s).2 →
      (step s).1.brightness = 0 ∧ (step s).1.direction = 1) ∧
    (Event.on1 ∈ (step s).2 ↔
      (step s).1.brightness = 255 ∧ s.brightness ≠ 255) ∧
    (Event.off1 ∈ (step s).2 ↔
      (step s).1.brightness = 0 ∧ s.brightness ≠ 0) := by
  rintro ⟨b, d, c⟩ ⟨hb0, hb1, hd, hc0, hc1, hx, hy⟩
  simp only [mem_on1_step, mem_off1_step, step_fst, update, UPDATE_EVERY, STEP]
  rcases hd with rfl | rfl <;> split_ifs <;> simp_all <;> omega

/-- **C6.** In every brightness-update step reached by the main loop: when
the counter fires and the stepped brightness is at least 255, the state is
clamped to 255, direction becomes −1 and `LED_On_1` fires; when it is at
most 0, the state is clamped to 0, direction becomes +1 and `LED_Off_1`
fires; and the LED1 on/off actions occur exactly at the iterations where
brightness reaches 255, respectively 0, and at no other iteration. -/
theorem boundary_policy_led1 (n : ℕ) :
    (Event.on1 ∈ (step (iterate n)).2 ↔
      UPDATE_EVERY ≤ (iterate n).counter + 1 ∧
      255 ≤ (iterate n).brightness + (iterate n).direction * STEP) ∧
    (Event.on1 ∈ (step (iterate n)).2 →
      (iterate (n + 1)).brightness = 255 ∧ (iterate (n + 1)).direction = -1) ∧
    (Event.off1 ∈ (step (iterate n)).2 ↔
      UPDATE_EVERY ≤ (iterate n).counter + 1 ∧
      (iterate n).brightness + (iterate n).direction * STEP ≤ 0) ∧
    (Event.off1 ∈ (step (iterate n)).2 →
      (iterate (n + 1)).brightness = 0 ∧ (iterate (n + 1)).direction = 1) ∧
    (Event.on1 ∈ (step (iterate n)).2 ↔
      (iterate (n + 1)).brightness = 255 ∧ (iterate n).brightness ≠ 255) ∧
    (Event.off1 ∈ (step (iterate n)).2 ↔
      (iterate (n + 1)).brightness = 0 ∧ (iterate n).brightness ≠ 0) :=
  events_characterization _ (inv_iterate n)

theorem on_time_pos_iff (b : ℤ) (h0 : 0 ≤ b) (h1 : b ≤ 255) :
    0 < on_time b ↔ b ≠ 0 := by
  simp only [on_time, PWM_CYCLE, BRIGHTNESS_MAX]
  omega

theorem off_time_pos_iff (b : ℤ) (h0 : 0 ≤ b) (h1 : b ≤ 255) :
    0 < off_time b ↔ b ≠ 255 := by
  simp only [off_time, on_time, PWM_CYCLE, BRIGHTNESS_MAX]
  omega

theorem delay0_not_pwm (b : ℤ) : Event.delayUs 0 ∉ pwmEvents b := by
  unfold pwmEvents
  split_ifs <;> simp_all <;> omega

theorem pwm_shape (b : ℤ) (h0 : 0 ≤ b) (h1 : b ≤ 255) :
    pwmEvents b =
      (if b = 0 then [] else [Event.on2, Event.delayUs (on_time b)]) ++
      (if b = 255 then [] else [Event.off2, Event.delayUs (off_time b)]) := by
  have h2 := on_time_pos_iff b h0 h1
  have h3 := off_time_pos_iff b h0 h1
  unfold pwmEvents
  by_cases hb : b = 0 <;> by_cases hb' : b = 255 <;> simp_all

/-- **C8.** In each loop iteration, the PWM phase drives LED2 high and
waits `on_time`, then drives it low and waits `off_time`, and a phase
whose computed duration is zero is skipped entirely; in particular no
`Delay_us` call with argument 0 is ever made. -/
theorem pwm_drive_skip_zero (n : ℕ) :
    Event.delayUs 0 ∉ pwmEvents (iterate n).brightness ∧
    pwmEvents (iterate n).brightness =
      (if (iterate n).brightness = 0 then []
        else [Event.on2, Event.delayUs (on_time (iterate n).brightness)]) ++
      (if (iterate n).brightness = 255 then []
        else [Event.off2, Event.delayUs (off_time (iterate n).brightness)]) :=
  ⟨delay0_not_pwm _,
    pwm_shape _ (inv_iterate n).1 (inv_iterate n).2.1⟩

theorem iterate_ramp (n : ℕ) (h : n ≤ 3824) :
    iterate n = ⟨((n / 15 : ℕ) : ℤ), 1, ((n % 15 : ℕ) : ℤ)⟩ := by
  induction n with
  | zero => simp [iterate, init]
  | succ n ih =>
    have hn : n ≤ 3824 := by omega
    rw [iterate_succ, ih hn]
    simp only [step_fst, update, UPDATE_EVERY, STEP]
    split_ifs <;> simp_all [State.mk.injEq] <;> omega

theorem iterate_3824 : iterate 3824 = ⟨254, 1, 14⟩ := by
  have h := iterate_ramp 3824 le_rfl
  norm_num at h
  exact h

theorem iterate_3825 : iterate 3825 = ⟨255, -1, 0⟩ := by
  have h : (3825 : ℕ) = 3824 + 1 := rfl
  rw [h, iterate_succ, iterate_3824]
  decide

theorem run_fst (n : ℕ) : (run n).1 = iterate n := by
  induction n with
  | zero => rfl
  | succ n ih => rw [run_succ, iterate_succ, ih]

theorem count_on1_step (s : State) :
    (step s).2.count Event.on1 = (update s).2.count Event.on1 := by
  rw [step_snd, List.count_append,
    List.count_eq_zero.mpr (on1_not_pwm s.brightness)]
  omega

theorem run_count_zero (n : ℕ) (h : n ≤ 3824) : (run n).2 = 0 := by
  induction n with
  | zero => rfl
  | succ n ih =>
    have hn : n ≤ 3823 := by omega
    rw [run_succ]
    simp only [run_fst, iterate_ramp n (by omega), count_on1_step,
      ih (by omega), update, UPDATE_EVERY, STEP]
    split_ifs <;> simp_all
    omega

/-- **C5.** Starting from brightness 0, direction +1, counter 0, after
exactly `15 * 255 = 3825` main-loop iterations the brightness is 255, the
direction has flipped to −1, and `LED_On_1` has fired exactly once — at
that iteration (zero firings in the first 3824 iterations). -/
theorem breathing_scenario_15x255 :
    iterate (15 * 255) = ⟨255, -1, 0⟩ ∧
    (run (15 * 255)).2 = 1 ∧
    (run 3824).2 = 0 := by
  have h15 : (15 * 255 : ℕ) = 3824 + 1 := by norm_num
  refine ⟨by rw [h15]; exact iterate_3825, ?_, run_count_zero 3824 le_rfl⟩
  rw [h15, run_succ, run_fst, iterate_3824, run_count_zero 3824 le_rfl,
    count_on1_step]
  decide
